import Mathlib

/-!
Verification development for an embedded in-memory relational query layer
(`dbmeta/db.py`): a fluent relational-algebra API (`TableQuery`) and a SQL-subset
interpreter (`SQLParserAdvanced`) over flat key/value records.

The Python code is shallowly embedded: records are association lists of
`String × Value`; Python `None` is `Value.null`; numbers are `Int`/`Rat`
(Python `float` literals in the queries under study are plain decimals, modelled
exactly as rationals); raising an exception is modelled as `Option`/`Except`
failure.  All string scanning is done over `List Char` so every definition is
executable by the kernel.  Per the data model, records hold scalar values;
container-valued cells (the IN-list literals, the `_group_key` tuple and the
`_rows` member list of a group record) are produced by the engine itself and are
never themselves compared by nested container equality, so `pyEq` compares
containers one level deep.
-/

/-- The universe of Python values the engine manipulates: `None`, booleans,
ints, floats (as exact rationals), strings, lists (IN-list literals and group
keys) and dicts (the member rows stored under `_rows` in a group record). -/
inductive Value where
  | null
  | bool (b : Bool)
  | int (n : Int)
  | float (q : Rat)
  | str (s : String)
  | list (vs : List Value)
  | dict (fs : List (String × Value))

/-- A record: a flat mapping from column name to value (Python `dict`). -/
abbrev Row := List (String × Value)

/-- First binding of a key in a record, `row[k]` when the key is present. -/
def rowLookup (r : Row) (k : String) : Option Value :=
  match r.find? (fun kv => kv.1 = k) with
  | some kv => some kv.2
  | none => none

/-- Python `row.get(k)`: the value bound to `k`, or `None` when absent. -/
def rowGet (r : Row) (k : String) : Value :=
  (rowLookup r k).getD .null

/-- Numeric view of a value: Python treats `bool` as a number (`isinstance(True, int)`
holds) and compares `int` and `float` by exact numeric value. -/
def toNum : Value → Option Rat
  | .bool b => some (if b then 1 else 0)
  | .int n => some (n : Rat)
  | .float q => some q
  | _ => none

/-- Models `isinstance(v, (int, float))` — true for bools, ints and floats. -/
def isNumV : Value → Bool
  | .bool _ => true
  | .int _ => true
  | .float _ => true
  | _ => false

/-- Numeric value with default 0 (only applied to values known numeric). -/
def toNumQ (v : Value) : Rat :=
  (toNum v).getD 0

/-- Python truthiness `bool(v)`. -/
def pyBool : Value → Bool
  | .null => false
  | .bool b => b
  | .int n => decide (n ≠ 0)
  | .float q => decide (q ≠ 0)
  | .str s => decide (s ≠ "")
  | .list vs => !vs.isEmpty
  | .dict fs => !fs.isEmpty

/-- Python `==` on scalars: numbers (bool/int/float) compare by numeric value,
`None` equals only `None`, strings by content; values of unrelated kinds are
unequal. -/
def pyEqAtom (a b : Value) : Bool :=
  match toNum a, toNum b with
  | some x, some y => decide (x = y)
  | _, _ =>
    match a, b with
    | .null, .null => true
    | .str s, .str t => decide (s = t)
    | _, _ => false

/-- Elementwise Python `==` on two lists of scalars. -/
def pyEqList (xs ys : List Value) : Bool :=
  decide (xs.length = ys.length) && (xs.zip ys).all fun p => pyEqAtom p.1 p.2

/-- Python `==`: scalar equality, one level of list equality (record cells are
scalars, so deeper nesting is never compared by the engine). -/
def pyEq (a b : Value) : Bool :=
  match a, b with
  | .list vs, .list ws => pyEqList vs ws
  | _, _ => pyEqAtom a b

/-- Code-point lexicographic order on strings, Python `str < str`. -/
def strLtB : List Char → List Char → Bool
  | [], [] => false
  | [], _ :: _ => true
  | _ :: _, [] => false
  | a :: as, b :: bs =>
    if a.toNat < b.toNat then true
    else if a.toNat = b.toNat then strLtB as bs
    else false

/-- Python `a < b`: defined for two numbers or two strings, a `TypeError`
(`none`) otherwise.  Record cells are scalars, so list ordering never arises. -/
def pyCmpLt (a b : Value) : Option Bool :=
  match toNum a, toNum b with
  | some x, some y => some (decide (x < y))
  | _, _ =>
    match a, b with
    | .str s, .str t => some (strLtB s.toList t.toList)
    | _, _ => none

/-- Python `a > b`. -/
def pyCmpGt (a b : Value) : Option Bool :=
  pyCmpLt b a

/-- Python `a >= b` (total on each comparable kind, so `¬(a < b)`). -/
def pyCmpGe (a b : Value) : Option Bool :=
  (pyCmpLt a b).map (fun x => !x)

/-- Python `a <= b`. -/
def pyCmpLe (a b : Value) : Option Bool :=
  (pyCmpLt b a).map (fun x => !x)

/-- Is `pat` a contiguous infix of `s` (Python `pat in s` on strings)? -/
def listInfixB (pat : List Char) : List Char → Bool
  | [] => pat.isEmpty
  | c :: tl => pat.isPrefixOf (c :: tl) || listInfixB pat tl

/-- Lower-cased character list of a string (Python `str.lower`). -/
def lowerChars (s : String) : List Char :=
  s.toList.map Char.toLower

/-- Python `v in cont` for the membership operators: list membership via `==`,
substring test on strings, key membership on dicts; `TypeError` (`none`) when
the container is not iterable or the probe is unhashable for a dict. -/
def pyIn (v cont : Value) : Option Bool :=
  match cont with
  | .list ws => some (ws.any fun w => pyEq v w)
  | .str t =>
    match v with
    | .str sv => some (listInfixB sv.toList t.toList)
    | _ => none
  | .dict fs =>
    match v with
    | .list _ => none
    | .dict _ => none
    | _ => some (fs.any fun kv => pyEq v (.str kv.1))
  | _ => none

/-- A predicate triple `(column, operator, literal)` as passed to
`TableQuery.where` / `TableQuery.having`. -/
abbrev Cond := String × String × Value

/-- One predicate triple of `TableQuery.where.check`: `some b` is the branch
outcome, `none` models an uncaught `TypeError`/`AttributeError` (the ordering
branches call `v > val` guarded only on `v`; `contains` calls `val.lower()`
guarded only on `v`; `in`/`not in` require an iterable literal). -/
def whereCheckCond (row : Row) (c : Cond) : Option Bool :=
  let v := rowGet row c.1
  let op := c.2.1
  let val := c.2.2
  if op = "=" then some (pyEq v val)
  else if op = "!=" then some (!pyEq v val)
  else if op = ">" then (if isNumV v then pyCmpGt v val else some false)
  else if op = "<" then (if isNumV v then pyCmpLt v val else some false)
  else if op = ">=" then (if isNumV v then pyCmpGe v val else some false)
  else if op = "<=" then (if isNumV v then pyCmpLe v val else some false)
  else if op = "contains" then
    (match v, val with
     | .str sv, .str t => some (listInfixB (lowerChars t) (lowerChars sv))
     | .str _, _ => none
     | _, _ => some false)
  else if op = "in" then pyIn v val
  else if op = "not in" then (pyIn v val).map (fun m => !m)
  else some false

/-- Models `TableQuery.where.check`: all predicate triples must hold (the loop returns
`False` at the first failing triple). -/
def whereCheck (conds : List Cond) (row : Row) : Option Bool :=
  match conds with
  | [] => some true
  | c :: cs =>
    match whereCheckCond row c with
    | none => none
    | some false => some false
    | some true => whereCheck cs row

/-- Models `TableQuery.where`: keep the rows satisfying every predicate triple;
`none` when evaluating a predicate raises. -/
def whereFilter (conds : List Cond) : List Row → Option (List Row)
  | [] => some []
  | r :: rs =>
    match whereCheck conds r with
    | none => none
    | some b =>
      match whereFilter conds rs with
      | none => none
      | some rest => some (if b then r :: rest else rest)

/-- One predicate triple of `TableQuery.having.check`: identical to the `where`
branches for the six comparison operators, but `contains`/`in`/`not in` are
missing, so any other operator string falls to the final `return False`. -/
def havingCheckCond (row : Row) (c : Cond) : Option Bool :=
  let v := rowGet row c.1
  let op := c.2.1
  let val := c.2.2
  if op = "=" then some (pyEq v val)
  else if op = "!=" then some (!pyEq v val)
  else if op = ">" then (if isNumV v then pyCmpGt v val else some false)
  else if op = "<" then (if isNumV v then pyCmpLt v val else some false)
  else if op = ">=" then (if isNumV v then pyCmpGe v val else some false)
  else if op = "<=" then (if isNumV v then pyCmpLe v val else some false)
  else some false

/-- Models `TableQuery.having.check` over a predicate list. -/
def havingCheck (conds : List Cond) (row : Row) : Option Bool :=
  match conds with
  | [] => some true
  | c :: cs =>
    match havingCheckCond row c with
    | none => none
    | some false => some false
    | some true => havingCheck cs row

/-- Models `TableQuery.having`: keep the rows satisfying every predicate triple. -/
def havingFilter (conds : List Cond) : List Row → Option (List Row)
  | [] => some []
  | r :: rs =>
    match havingCheck conds r with
    | none => none
    | some b =>
      match havingFilter conds rs with
      | none => none
      | some rest => some (if b then r :: rest else rest)

/-- Models `TableQuery.select`: project the named columns, absent columns giving null. -/
def selectCols (cols : List String) (rows : List Row) : List Row :=
  rows.map fun r => cols.map fun c => (c, rowGet r c)

/-- Are all pairs of sort keys mutually comparable?  Python `sorted` raises as
soon as it compares an incomparable pair; with scalar keys the comparable kinds
(numbers, strings) partition the values, so a list drawn from two kinds always
has an incomparable adjacent pair.  Hence the sort succeeds exactly when the
list has at most one element or all keys are pairwise comparable. -/
def allComparable (ks : List Value) : Bool :=
  ks.all fun a => ks.all fun b => (pyCmpLt a b).isSome

/-- Stable insertion used to model Python `sorted(rows, key=r.get(col),
reverse=desc)`: a row is inserted after every already-placed row whose key
strictly precedes it in the requested direction, which reproduces Timsort's
stable result on totally comparable keys. -/
def insertRow (col : String) (desc : Bool) (r : Row) : List Row → List Row
  | [] => [r]
  | x :: xs =>
    let kx := rowGet x col
    let kr := rowGet r col
    let skip := if desc then (pyCmpLt kr kx).getD false else (pyCmpLt kx kr).getD false
    if skip then x :: insertRow col desc r xs else r :: x :: xs

/-- The `sorted(...)` call inside `TableQuery.order_by`: `some` sorted rows, or
`none` when comparing sort keys raises `TypeError`. -/
def sortRowsE (rows : List Row) (col : String) (desc : Bool) : Option (List Row) :=
  if rows.length ≤ 1 || allComparable (rows.map fun r => rowGet r col) then
    some (rows.foldr (insertRow col desc) [])
  else none

/-- Models `TableQuery.order_by`: the sorted rows, or (`except Exception: return self`)
the rows unchanged when the sort raises. -/
def order_byRows (rows : List Row) (col : String) (desc : Bool) : List Row :=
  (sortRowsE rows col desc).getD rows

/-- Python list slice `rows[:n]`, including negative-`n` semantics (drop `-n`
elements from the end). -/
def pySliceTo (rows : List Row) (n : Int) : List Row :=
  if 0 ≤ n then rows.take n.toNat else rows.take (rows.length - (-n).toNat)

/-- Models `TableQuery.limit`. -/
def limitRows (n : Int) (rows : List Row) : List Row :=
  pySliceTo rows n

/-- Models `merged = dict(l); merged.update(r)`: left row's key order with right's
values overriding, then right's new keys in right's order. -/
def mergeRow (l r : Row) : Row :=
  (l.map fun kv => (kv.1, (rowLookup r kv.1).getD kv.2)) ++
    r.filter fun kv => (rowLookup l kv.1).isNone

/-- Models `TableQuery.join`: nested-loop equi-join on `on`, matching by Python `==`
(which makes `None` match `None`). -/
def joinRows (left right : List Row) (key : String) : List Row :=
  left.flatMap fun l =>
    (right.filter fun r => pyEq (rowGet r key) (rowGet l key)).map fun r => mergeRow l r

/-- Models `TableQuery.multi_join`: left-to-right fold of `join`. -/
def multi_joinRows (rows : List Row) (tables : List (List Row)) (key : String) : List Row :=
  tables.foldl (fun acc t => joinRows acc t key) rows

/-- Columns holding at least one numeric value among the rows (the
`numeric_cols` set of `group_by`, iterated in first-occurrence order). -/
def numericCols (rows : List Row) : List String :=
  rows.foldl
    (fun acc r =>
      r.foldl
        (fun acc2 kv =>
          if isNumV kv.2 && !acc2.contains kv.1 then acc2 ++ [kv.1] else acc2)
        acc)
    []

/-- The numeric values of a column over a row list. -/
def colNumVals (rows : List Row) (col : String) : List Value :=
  rows.filterMap fun r =>
    let v := rowGet r col
    if isNumV v then some v else none

/-- Python `sum` over numeric values: stays `int` while every summand is an
int or bool, becomes `float` once a float participates. -/
def pySum (vs : List Value) : Value :=
  if vs.all fun v => (match v with | .int _ => true | .bool _ => true | _ => false) then
    .int (vs.foldl
      (fun acc v => acc + (match v with
        | .int n => n
        | .bool b => if b then 1 else 0
        | _ => 0)) 0)
  else
    .float (vs.foldl (fun acc v => acc + toNumQ v) 0)

/-- Python `min` over numeric values: the first element attaining the minimum. -/
def pyMinV (v : Value) (vs : List Value) : Value :=
  vs.foldl (fun best x => if decide (toNumQ x < toNumQ best) then x else best) v

/-- Python `max` over numeric values: the first element attaining the maximum. -/
def pyMaxV (v : Value) (vs : List Value) : Value :=
  vs.foldl (fun best x => if decide (toNumQ x > toNumQ best) then x else best) v

/-- Sum of the numeric views, used by `AVG` (true division, always a float). -/
def ratSum (vs : List Value) : Rat :=
  vs.foldl (fun acc v => acc + toNumQ v) 0

/-- The auto-computed `SUM_/MIN_/MAX_/AVG_` aggregate fields of one group. -/
def groupAggFields (rows : List Row) : Row :=
  (numericCols rows).flatMap fun col =>
    match colNumVals rows col with
    | [] => []
    | v :: tl =>
      [("SUM_" ++ col, pySum (v :: tl)),
       ("MIN_" ++ col, pyMinV v tl),
       ("MAX_" ++ col, pyMaxV v tl),
       ("AVG_" ++ col, .float (ratSum (v :: tl) / ((v :: tl).length : Rat)))]

/-- The grouping key of a row: the tuple of the group-by column values. -/
def groupKeyOf (cols : List String) (r : Row) : List Value :=
  cols.map fun c => rowGet r c

/-- Distinct grouping keys in first-occurrence order (Python dict insertion
order), compared by Python `==` as dict-key equality. -/
def groupKeys (cols : List String) (rows : List Row) : List (List Value) :=
  rows.foldl
    (fun acc r =>
      if acc.any (fun k => pyEqList k (groupKeyOf cols r)) then acc
      else acc ++ [groupKeyOf cols r])
    []

/-- Models `TableQuery.group_by`: one group record per distinct key, holding the key
tuple, the member rows, `COUNT`, and the numeric aggregate fields. -/
def group_byRows (cols : List String) (rows : List Row) : List Row :=
  (groupKeys cols rows).map fun k =>
    let members := rows.filter fun r => pyEqList (groupKeyOf cols r) k
    [("_group_key", .list k),
     ("_rows", .list (members.map .dict)),
     ("COUNT", .int members.length)] ++ groupAggFields members

/-!
Instance-level view of the pipeline operators.  Python distinguishes the
`TableQuery` object identity (`order_by` returns `self` on a sort failure,
every other operator builds `TableQuery(new_list)`).  We make allocation
observable by tagging each `TableQuery` with an id and threading the next
fresh id through every operator, exactly where the source executes
`TableQuery(...)`.
-/

/-- A pipeline instance: its object identity and its record sequence. -/
structure TableQuery where
  tqid : Nat
  rows : List Row

/-- Models `TableQuery.where` at instance level (`n` = next fresh id; no allocation
happens when the list comprehension raises). -/
def whereTQ (t : TableQuery) (conds : List Cond) (n : Nat) : Option (TableQuery × Nat) :=
  match whereFilter conds t.rows with
  | none => none
  | some rs => some (⟨n, rs⟩, n + 1)

/-- Models `TableQuery.select` at instance level. -/
def selectTQ (t : TableQuery) (cols : List String) (n : Nat) : TableQuery × Nat :=
  (⟨n, selectCols cols t.rows⟩, n + 1)

/-- Models `TableQuery.order_by` at instance level: a fresh instance on success,
`self` — the very same instance — when the sort raises. -/
def order_byTQ (t : TableQuery) (col : String) (desc : Bool) (n : Nat) : TableQuery × Nat :=
  match sortRowsE t.rows col desc with
  | some rs => (⟨n, rs⟩, n + 1)
  | none => (t, n)

/-- Models `TableQuery.limit` at instance level. -/
def limitTQ (t : TableQuery) (i : Int) (n : Nat) : TableQuery × Nat :=
  (⟨n, limitRows i t.rows⟩, n + 1)

/-- Models `TableQuery.join` at instance level. -/
def joinTQ (t other : TableQuery) (key : String) (n : Nat) : TableQuery × Nat :=
  (⟨n, joinRows t.rows other.rows key⟩, n + 1)

/-- Models `TableQuery.multi_join` at instance level: it first allocates
`TableQuery(self.rows)` and then folds `join` over the table list. -/
def multi_joinTQ (t : TableQuery) (ts : List TableQuery) (key : String) (n : Nat) :
    TableQuery × Nat :=
  ts.foldl (fun acc jt => joinTQ acc.1 jt key acc.2) ((⟨n, t.rows⟩ : TableQuery), n + 1)

/-- Models `TableQuery.group_by` at instance level. -/
def group_byTQ (t : TableQuery) (cols : List String) (n : Nat) : TableQuery × Nat :=
  (⟨n, group_byRows cols t.rows⟩, n + 1)

/-- Models `TableQuery.having` at instance level. -/
def havingTQ (t : TableQuery) (conds : List Cond) (n : Nat) : Option (TableQuery × Nat) :=
  match havingFilter conds t.rows with
  | none => none
  | some rs => some (⟨n, rs⟩, n + 1)

/-!
The SQL expression machinery of `SQLParserAdvanced`: tokenizer
(`_tokenize_expr`), shunting-yard compiler to postfix (`_to_rpn`) and postfix
evaluator (`_apply_filter_expr.eval_row`).
-/

/-- Lexical tokens, `Token(type, value)` of the source. -/
inductive Tok where
  | lparen
  | rparen
  | comma
  | op (s : String)
  | lit (v : Value)
  | ident (s : String)

/-- A regex word character, the `\w` class used by the keyword patterns. -/
def wordChar (c : Char) : Bool :=
  c.isAlpha || c.isDigit || c == '_'

/-- A character of the identifier class `[A-Za-z0-9_.*]`. -/
def identChar (c : Char) : Bool :=
  wordChar c || c == '.' || c == '*'

/-- Case-insensitive prefix match against a lower-case pattern. -/
def charsCI : List Char → List Char → Bool
  | [], _ => true
  | _ :: _, [] => false
  | p :: ps, c :: cs => c.toLower == p && charsCI ps cs

/-- Models `re.match(pat + "\\b", s, re.I)`: case-insensitive keyword at the start of
`s` followed by a word boundary. -/
def kwAt (pat s : List Char) : Bool :=
  charsCI pat s &&
    (match (s.drop pat.length).head? with
     | none => true
     | some ch => !wordChar ch)

/-- The quoted-literal scan of `_tokenize_expr`: consume until an unescaped
closing quote (`s[j] == q and s[j-1] != '\\'`), returning the literal body and
the characters after the closing quote; an unterminated literal consumes
everything. -/
def scanStr (q : Char) : List Char → Char → List Char × List Char
  | [], _ => ([], [])
  | c :: cs, prev =>
    if c == q && prev != '\\' then ([], cs)
    else
      let p := scanStr q cs c
      (c :: p.1, p.2)

/-- Does `^\d+(\.\d+)?$` match this identifier-class run? -/
def isNumRun (cs : List Char) : Bool :=
  let intPart := cs.takeWhile Char.isDigit
  let rest := cs.drop intPart.length
  if intPart.isEmpty then false
  else
    match rest with
    | [] => true
    | '.' :: ds => !ds.isEmpty && ds.all Char.isDigit
    | _ => false

/-- Decimal digit-run value. -/
def digitsToNat (cs : List Char) : Nat :=
  cs.foldl (fun n c => n * 10 + (c.toNat - 48)) 0

/-- Models `int(tok)` / `float(tok)` on a numeric run (floats as exact rationals). -/
def numOfRun (cs : List Char) : Value :=
  let intPart := cs.takeWhile Char.isDigit
  let rest := cs.drop intPart.length
  match rest with
  | '.' :: ds =>
    .float (mkRat ((digitsToNat intPart) * 10 ^ ds.length + digitsToNat ds) (10 ^ ds.length))
  | _ => .int (digitsToNat intPart)

/-- Prepend a token to the result of the remaining scan. -/
def consTok (t : Tok) : Except String (List Tok) → Except String (List Tok)
  | .error e => .error e
  | .ok ts => .ok (t :: ts)

/-- Models `_tokenize_expr`, one branch per source branch in source order; the fuel
only bounds the recursion and every step consumes at least one character, so
the wrapper's `length + 1` always suffices. -/
def tokenizeAux : Nat → List Char → Except String (List Tok)
  | 0, _ => .error "tokenizer fuel exhausted"
  | _ + 1, [] => .ok []
  | f + 1, c :: cs =>
    if c.isWhitespace then tokenizeAux f cs
    else if c == '(' then consTok .lparen (tokenizeAux f cs)
    else if c == ')' then consTok .rparen (tokenizeAux f cs)
    else if (c == '>' || c == '<' || c == '!') && cs.head? == some '=' then
      consTok (.op (String.mk [c, '='])) (tokenizeAux f (cs.drop 1))
    else if c == '=' || c == '>' || c == '<' then
      consTok (.op (String.mk [c])) (tokenizeAux f cs)
    else if kwAt "and".toList (c :: cs) then
      consTok (.op "AND") (tokenizeAux f ((c :: cs).drop 3))
    else if kwAt "or".toList (c :: cs) then
      consTok (.op "OR") (tokenizeAux f ((c :: cs).drop 2))
    else if kwAt "not".toList (c :: cs) then
      consTok (.op "NOT") (tokenizeAux f ((c :: cs).drop 3))
    else if kwAt "contains".toList (c :: cs) then
      consTok (.op "CONTAINS") (tokenizeAux f ((c :: cs).drop 8))
    else if kwAt "in".toList (c :: cs) then
      consTok (.op "IN") (tokenizeAux f ((c :: cs).drop 2))
    else if c == '\'' || c == '"' then
      let p := scanStr c cs c
      consTok (.lit (.str (String.mk p.1))) (tokenizeAux f p.2)
    else if identChar c then
      let run := (c :: cs).takeWhile identChar
      let tk := if isNumRun run then Tok.lit (numOfRun run) else Tok.ident (String.mk run)
      consTok tk (tokenizeAux f ((c :: cs).drop run.length))
    else if c == ',' then consTok .comma (tokenizeAux f cs)
    else .error "Unexpected char in WHERE"

/-- The tokenizer scan over a character list. -/
def tokenizeChars (cs : List Char) : Except String (List Tok) :=
  tokenizeAux (cs.length + 1) cs

/-- Python `str.strip()`. -/
def trimChars (cs : List Char) : List Char :=
  ((cs.dropWhile Char.isWhitespace).reverse.dropWhile Char.isWhitespace).reverse

/-- Models `_tokenize_expr` on a string (which first strips the text). -/
def tokenizeExpr (s : String) : Except String (List Tok) :=
  tokenizeChars (trimChars s.toList)

/-- Operator precedence table of `_to_rpn` (`prec.get(op, 0)`). -/
def prec : String → Nat
  | "NOT" => 5
  | "CONTAINS" => 4
  | "IN" => 4
  | "NOT IN" => 4
  | "=" => 4
  | "!=" => 4
  | ">" => 4
  | "<" => 4
  | ">=" => 4
  | "<=" => 4
  | "AND" => 2
  | "OR" => 1
  | _ => 0

/-- Upper-case a string (the `op.upper()` and final token normalization). -/
def upperStr (s : String) : String :=
  String.mk (s.toList.map Char.toUpper)

/-- The final post-processing of `_to_rpn`: upper-case operator values. -/
def upperOpTok : Tok → Tok
  | .op s => .op (upperStr s)
  | t => t

/-- Pop operators with precedence `≥ p` off the operator stack
(the `while opstack and opstack[-1].type=="OP" and prec[top] >= prec[op]` loop). -/
def popGE (p : Nat) : List Tok → List Tok × List Tok
  | .op s :: st =>
    if prec s ≥ p then
      let q := popGE p st
      (.op s :: q.1, q.2)
    else ([], .op s :: st)
  | st => ([], st)

/-- Pop operators with precedence strictly greater than `p` (the `NOT` branch). -/
def popGT (p : Nat) : List Tok → List Tok × List Tok
  | .op s :: st =>
    if prec s > p then
      let q := popGT p st
      (.op s :: q.1, q.2)
    else ([], .op s :: st)
  | st => ([], st)

/-- Pop to the matching left parenthesis: the popped operators in pop order and
the stack below the parenthesis, or `none` when no left parenthesis remains. -/
def popToLparen : List Tok → Option (List Tok × List Tok)
  | [] => none
  | .lparen :: st => some ([], st)
  | t :: st =>
    match popToLparen st with
    | none => none
    | some (p, st') => some (t :: p, st')

/-- The final drain of the operator stack; a leftover parenthesis is the
"Mismatched parentheses" error. -/
def flushStack : List Tok → List Tok → Except String (List Tok)
  | [], out => .ok out
  | .lparen :: _, _ => .error "Mismatched parentheses"
  | .rparen :: _, _ => .error "Mismatched parentheses"
  | t :: st, out => flushStack st (out ++ [t])

/-- The value stored in a `Token` (`.value` attribute) as a `Value`. -/
def tokValue : Tok → Value
  | .lparen => .str "("
  | .rparen => .str ")"
  | .comma => .str ","
  | .op s => .str s
  | .lit v => v
  | .ident s => .str s

/-- Element extraction for one IN-list group: the single token's value, or
`''.join` of the collected values, which is a `TypeError` unless all are
strings. -/
def joinVals : List Tok → Except String Value
  | [t] => .ok (tokValue t)
  | ts =>
    let vs := ts.map tokValue
    if vs.all (fun v => match v with | .str _ => true | _ => false) then
      .ok (.str (String.mk (vs.flatMap fun v =>
        match v with
        | .str s => s.toList
        | _ => [])))
    else .error "TypeError: sequence item is not str"

/-- Characters stripped by `s.strip("'\"")`. -/
def isQuoteCh (c : Char) : Bool :=
  c == '\'' || c == '"'

/-- Models `s.strip("'\"")`. -/
def stripQuotes (cs : List Char) : List Char :=
  ((cs.dropWhile isQuoteCh).reverse.dropWhile isQuoteCh).reverse

/-- Python `str(v)` for the scalar token values that can reach the IN-list
coercion (in practice only strings do). -/
def pyStr : Value → String
  | .str s => s
  | .int n => toString n
  | .float q => toString q
  | .bool b => if b then "True" else "False"
  | .null => "None"
  | .list _ => ""
  | .dict _ => ""

/-- Models `float(s)` on the plain decimal strings the tokenizer can produce. -/
def tryFloat (cs : List Char) : Option Rat :=
  let intPart := cs.takeWhile Char.isDigit
  let rest := cs.drop intPart.length
  match rest with
  | [] => if intPart.isEmpty then none else some (mkRat (digitsToNat intPart) 1)
  | '.' :: ds =>
    if ds.all Char.isDigit && !(intPart.isEmpty && ds.isEmpty) then
      some (mkRat ((digitsToNat intPart) * 10 ^ ds.length + digitsToNat ds) (10 ^ ds.length))
    else none
  | _ => none

/-- The per-element coercion of the parsed IN list: numbers pass through,
other values are stringified, quote-stripped, and re-read as int, float or
string. -/
def parseInVal (v : Value) : Value :=
  match v with
  | .int n => .int n
  | .float q => .float q
  | _ =>
    let s := stripQuotes (pyStr v).toList
    if !s.isEmpty && s.all Char.isDigit then .int (digitsToNat s)
    else
      match tryFloat s with
      | some q => .float q
      | none => .str (String.mk s)

/-- Emit the composite IN-list literal and push the `IN` operator
(`out.append(LITERAL list)` then the `>= prec` pops, then push `OP IN`). -/
def finishInList (vals : List Value) (out st : List Tok) : List Tok × List Tok :=
  let lst := vals.map parseInVal
  let q := popGE (prec "IN") st
  (out ++ [.lit (.list lst)] ++ q.1, .op "IN" :: q.2)

/-- Scanner state of `_to_rpn`: the main loop, or the IN-list read-ahead loop
with its pending element and collected values. -/
inductive RpnMode where
  | norm
  | inlist (current : List Tok) (vals : List Value)

/-- Models `_to_rpn`, with the IN read-ahead (`j`-loop) expressed as a scanning mode:
each branch corresponds to one branch of the source loop. -/
def toRpnAux : RpnMode → List Tok → List Tok → List Tok → Except String (List Tok)
  | .norm, [], out, st => flushStack st out
  | .norm, .lit v :: rest, out, st => toRpnAux .norm rest (out ++ [.lit v]) st
  | .norm, .ident s :: rest, out, st => toRpnAux .norm rest (out ++ [.ident s]) st
  | .norm, .op s :: rest, out, st =>
    if s = "NOT" then
      let q := popGT (prec s) st
      toRpnAux .norm rest (out ++ q.1) (.op s :: q.2)
    else if upperStr s = "IN" then
      match rest with
      | .lparen :: rest2 => toRpnAux (.inlist [] []) rest2 out st
      | _ => .error "IN must be followed by (list)"
    else
      let q := popGE (prec s) st
      toRpnAux .norm rest (out ++ q.1) (.op s :: q.2)
  | .norm, .lparen :: rest, out, st => toRpnAux .norm rest out (.lparen :: st)
  | .norm, .rparen :: rest, out, st =>
    match popToLparen st with
    | none => .error "Mismatched parentheses"
    | some (p, st') => toRpnAux .norm rest (out ++ p) st'
  | .norm, .comma :: rest, out, st => toRpnAux .norm rest out st
  | .inlist _ vals, [], out, st =>
    let r := finishInList vals out st
    flushStack r.2 r.1
  | .inlist current vals, .rparen :: rest, out, st =>
    if current.isEmpty then
      let r := finishInList vals out st
      toRpnAux .norm rest r.1 r.2
    else
      match joinVals current with
      | .error e => .error e
      | .ok v =>
        let r := finishInList (vals ++ [v]) out st
        toRpnAux .norm rest r.1 r.2
  | .inlist current vals, .comma :: rest, out, st =>
    if current.isEmpty then toRpnAux (.inlist [] vals) rest out st
    else
      match joinVals current with
      | .error e => .error e
      | .ok v => toRpnAux (.inlist [] (vals ++ [v])) rest out st
  | .inlist current vals, t :: rest, out, st =>
    toRpnAux (.inlist (current ++ [t]) vals) rest out st

/-- Models `_to_rpn`: shunting-yard compilation plus the final operator upper-casing. -/
def toRpn (tokens : List Tok) : Except String (List Tok) :=
  match toRpnAux .norm tokens [] [] with
  | .error e => .error e
  | .ok out => .ok (out.map upperOpTok)

/-- Models `_parse_boolean_expression`: tokenize, then compile to postfix. -/
def parseBooleanExpression (s : String) : Except String (List Tok) :=
  match tokenizeExpr s with
  | .error e => .error e
  | .ok toks => toRpn toks

/-- Is this one of the six comparison operator strings? -/
def isCmpOp (s : String) : Bool :=
  s == "=" || s == "!=" || s == ">" || s == "<" || s == ">=" || s == "<="

/-- Models `None` test used by the guarded ordering comparisons. -/
def notNull : Value → Bool
  | .null => false
  | _ => true

/-- The comparison branch of `eval_row`, inside its `try/except`: ordering
comparisons require both operands non-null and an unorderable pair raises
`TypeError`, caught to `False`. -/
def cmpOpResult (s : String) (a b : Value) : Bool :=
  if s = "=" then pyEq a b
  else if s = "!=" then !pyEq a b
  else if s = ">" then notNull a && notNull b && (pyCmpGt a b).getD false
  else if s = "<" then notNull a && notNull b && (pyCmpLt a b).getD false
  else if s = ">=" then notNull a && notNull b && (pyCmpGe a b).getD false
  else if s = "<=" then notNull a && notNull b && (pyCmpLe a b).getD false
  else false

/-- Models `eval_row` of `_apply_filter_expr`: execute the postfix sequence against
one record with an operand stack; `none` models an uncaught exception (stack
underflow, `a in <non-container>` in the `IN`/`NOT IN` branches, or an unknown
operator/token). -/
def evalRpnAux (row : Row) : List Tok → List Value → Option Bool
  | [], stack =>
    some (match stack with
          | v :: _ => pyBool v
          | [] => false)
  | .lit v :: rest, stack => evalRpnAux row rest (v :: stack)
  | .ident s :: rest, stack => evalRpnAux row rest (rowGet row s :: stack)
  | .op s :: rest, stack =>
    if isCmpOp s then
      match stack with
      | b :: a :: st => evalRpnAux row rest (.bool (cmpOpResult s a b) :: st)
      | _ => none
    else if s = "CONTAINS" then
      match stack with
      | b :: a :: st =>
        let r := match a, b with
          | .str sa, .str sb => listInfixB (lowerChars sb) (lowerChars sa)
          | _, _ => false
        evalRpnAux row rest (.bool r :: st)
      | _ => none
    else if s = "IN" then
      match stack with
      | b :: a :: st =>
        match b with
        | .null => evalRpnAux row rest (.bool false :: st)
        | _ =>
          match pyIn a b with
          | none => none
          | some m => evalRpnAux row rest (.bool m :: st)
      | _ => none
    else if s = "NOT IN" then
      match stack with
      | b :: a :: st =>
        match pyIn a b with
        | none => none
        | some m => evalRpnAux row rest (.bool (!m) :: st)
      | _ => none
    else if s = "AND" then
      match stack with
      | b :: a :: st => evalRpnAux row rest (.bool (pyBool a && pyBool b) :: st)
      | _ => none
    else if s = "OR" then
      match stack with
      | b :: a :: st => evalRpnAux row rest (.bool (pyBool a || pyBool b) :: st)
      | _ => none
    else if s = "NOT" then
      match stack with
      | a :: st => evalRpnAux row rest (.bool (!pyBool a) :: st)
      | _ => none
    else none
  | _ :: _, _ => none

/-- Models `_apply_filter_expr`: keep the rows whose postfix evaluation is true;
`none` when evaluating any row raises. -/
def applyFilterExpr (rpn : List Tok) : List Row → Option (List Row)
  | [] => some []
  | r :: rs =>
    match evalRpnAux r rpn [] with
    | none => none
    | some b =>
      match applyFilterExpr rpn rs with
      | none => none
      | some rest => some (if b then r :: rest else rest)

/-!
Clause extraction and the top-level `SQLParserAdvanced.run`.  The source
extracts clauses with regexes over the whitespace-normalized query
(`" ".join(s.split())`); each regex is modelled by a scanning function with the
same semantics on single-space text: case-insensitive leftmost match, lazy
capture up to the earliest stop keyword, retry at the next occurrence when the
rest of a pattern fails.  The dead `from`/`join` alias captures (`alias_map` is
never read) are not modelled.
-/

/-- Split on whitespace runs, dropping empties (Python `s.split()`). -/
def splitWsAux : Nat → List Char → List (List Char)
  | 0, _ => []
  | f + 1, cs =>
    match cs.dropWhile Char.isWhitespace with
    | [] => []
    | c :: tl =>
      let run := (c :: tl).takeWhile (fun ch => !ch.isWhitespace)
      run :: splitWsAux f ((c :: tl).drop run.length)

/-- Models `" ".join(s.split())`: whitespace normalization. -/
def normWsChars (cs : List Char) : List Char :=
  List.intercalate [' '] (splitWsAux (cs.length + 1) cs)

/-- The suffix starting at the first case-insensitive occurrence of `pat`. -/
def findCISuffix (pat : List Char) : List Char → Option (List Char)
  | [] => if charsCI pat [] then some [] else none
  | c :: cs => if charsCI pat (c :: cs) then some (c :: cs) else findCISuffix pat cs

/-- Index of the first case-insensitive occurrence of `pat`. -/
def findCIIndex (pat : List Char) : List Char → Option Nat
  | [] => if charsCI pat [] then some 0 else none
  | c :: cs =>
    if charsCI pat (c :: cs) then some 0
    else (findCIIndex pat cs).map (fun i => i + 1)

/-- Models `re.search(r"select\s+(.*?)\s+from\s", s, re.I)`: the stripped text between
the first `select ` whose tail contains ` from ` and that ` from `. -/
def extractSelectAux : Nat → List Char → Option (List Char)
  | 0, _ => none
  | f + 1, s =>
    match findCISuffix "select ".toList s with
    | none => none
    | some suf =>
      let afterSel := suf.drop 7
      match findCIIndex " from ".toList afterSel with
      | some idx => some (trimChars (afterSel.take idx))
      | none => extractSelectAux f (suf.drop 1)

/-- The SELECT item list text of a query. -/
def extractSelectClause (s : List Char) : Option (List Char) :=
  extractSelectAux (s.length + 1) s

/-- Models `re.search(r"from\s+([a-zA-Z0-9_]+)...", s, re.I)`: the table name after
the first `from` followed by whitespace and an identifier. -/
def findFromAux : Nat → List Char → Option String
  | 0, _ => none
  | f + 1, s =>
    match findCISuffix "from".toList s with
    | none => none
    | some suf =>
      let after := suf.drop 4
      let ws := after.takeWhile Char.isWhitespace
      let ident := (after.drop ws.length).takeWhile wordChar
      if !ws.isEmpty && !ident.isEmpty then some (String.mk ident)
      else findFromAux f (suf.drop 1)

/-- The FROM table name of a query. -/
def findFromTable (s : List Char) : Option String :=
  findFromAux (s.length + 1) s

/-- Does the lookahead `\s*(stop₁|…|$)` match at this position? -/
def stopsAt (stops : List (List Char)) (s : List Char) : Bool :=
  let t := s.dropWhile Char.isWhitespace
  t.isEmpty || stops.any (fun p => charsCI p t)

/-- The least index at which the stop lookahead matches (the end always does). -/
def findStopIndex (stops : List (List Char)) : List Char → Nat
  | [] => 0
  | c :: cs => if stopsAt stops (c :: cs) then 0 else findStopIndex stops cs + 1

/-- Models `_extract_between`: the stripped lazy capture after `startPat` + whitespace
up to the earliest stop keyword or end of text. -/
def extractBetweenAux : Nat → List Char → List (List Char) → List Char → Option (List Char)
  | 0, _, _, _ => none
  | f + 1, startPat, stops, s =>
    match findCISuffix startPat s with
    | none => none
    | some suf =>
      let after := suf.drop startPat.length
      let ws := after.takeWhile Char.isWhitespace
      if ws.isEmpty then extractBetweenAux f startPat stops (suf.drop 1)
      else
        let body := after.drop ws.length
        some (trimChars (body.take (findStopIndex stops body)))

/-- Models `_extract_between` on a query. -/
def extractBetween (startPat : List Char) (stops : List (List Char)) (s : List Char) :
    Option (List Char) :=
  extractBetweenAux (s.length + 1) startPat stops s

/-- Models `re.search(r"order by\s+([a-zA-Z0-9_]+)(?:\s+(asc|desc))?", s, re.I)`:
the sort column and the descending flag. -/
def findOrderByAux : Nat → List Char → Option (String × Bool)
  | 0, _ => none
  | f + 1, s =>
    match findCISuffix "order by".toList s with
    | none => none
    | some suf =>
      let after := suf.drop 8
      let ws := after.takeWhile Char.isWhitespace
      let rest := after.drop ws.length
      let ident := rest.takeWhile wordChar
      if ws.isEmpty || ident.isEmpty then findOrderByAux f (suf.drop 1)
      else
        let rest2 := rest.drop ident.length
        let ws2 := rest2.takeWhile Char.isWhitespace
        let rest3 := rest2.drop ws2.length
        let descFlag :=
          !ws2.isEmpty && !charsCI "asc".toList rest3 && charsCI "desc".toList rest3
        some (String.mk ident, descFlag)

/-- The ORDER BY column and direction of a query. -/
def findOrderBy (s : List Char) : Option (String × Bool) :=
  findOrderByAux (s.length + 1) s

/-- Models `re.search(r"limit\s+([0-9]+)", s, re.I)`: the LIMIT count. -/
def findLimitAux : Nat → List Char → Option Nat
  | 0, _ => none
  | f + 1, s =>
    match findCISuffix "limit".toList s with
    | none => none
    | some suf =>
      let after := suf.drop 5
      let ws := after.takeWhile Char.isWhitespace
      let digits := (after.drop ws.length).takeWhile Char.isDigit
      if !ws.isEmpty && !digits.isEmpty then some (digitsToNat digits)
      else findLimitAux f (suf.drop 1)

/-- The LIMIT count of a query. -/
def findLimit (s : List Char) : Option Nat :=
  findLimitAux (s.length + 1) s

/-- The `\s+using\s*\(\s*([a-zA-Z0-9_]+)\s*\)` tail of the join pattern:
the key and the remaining text after the match. -/
def matchUsingTail (s : List Char) : Option (String × List Char) :=
  let ws := s.takeWhile Char.isWhitespace
  if ws.isEmpty then none
  else
    let r1 := s.drop ws.length
    if charsCI "using".toList r1 then
      let r2 := (r1.drop 5).dropWhile Char.isWhitespace
      match r2 with
      | '(' :: r3 =>
        let r4 := r3.dropWhile Char.isWhitespace
        let key := r4.takeWhile wordChar
        if key.isEmpty then none
        else
          match (r4.drop key.length).dropWhile Char.isWhitespace with
          | ')' :: r6 => some (String.mk key, r6)
          | _ => none
      | _ => none
    else none

/-- One `join <table> [[as] alias] using(<key>)` clause starting right after
the `join` keyword, with the regex's greedy-then-backtrack optional alias. -/
def matchJoinAt (s : List Char) : Option (String × String × List Char) :=
  let ws := s.takeWhile Char.isWhitespace
  if ws.isEmpty then none
  else
    let r1 := s.drop ws.length
    let tbl := r1.takeWhile wordChar
    if tbl.isEmpty then none
    else
      let r2 := r1.drop tbl.length
      let aliasRest : Option (List Char) :=
        let ws2 := r2.takeWhile Char.isWhitespace
        if ws2.isEmpty then none
        else
          let r3 := r2.drop ws2.length
          let afterAs :=
            if charsCI "as".toList r3 && !((r3.drop 2).takeWhile Char.isWhitespace).isEmpty then
              some ((r3.drop 2).dropWhile Char.isWhitespace)
            else none
          let tryIdent : List Char → Option (List Char) := fun r =>
            let al := r.takeWhile wordChar
            if al.isEmpty then none else some (r.drop al.length)
          match afterAs with
          | some r4 =>
            match tryIdent r4 with
            | some r5 =>
              if (matchUsingTail r5).isSome then some r5
              else
                match tryIdent r3 with
                | some r5b => if (matchUsingTail r5b).isSome then some r5b else none
                | none => none
            | none =>
              match tryIdent r3 with
              | some r5b => if (matchUsingTail r5b).isSome then some r5b else none
              | none => none
          | none =>
            match tryIdent r3 with
            | some r5b => if (matchUsingTail r5b).isSome then some r5b else none
            | none => none
      match aliasRest with
      | some r5 =>
        match matchUsingTail r5 with
        | some (key, rest) => some (String.mk tbl, key, rest)
        | none => none
      | none =>
        match matchUsingTail r2 with
        | some (key, rest) => some (String.mk tbl, key, rest)
        | none => none

/-- Models `re.findall` of the join pattern: non-overlapping left-to-right matches. -/
def findJoinsAux : Nat → List Char → List (String × String)
  | 0, _ => []
  | f + 1, s =>
    match s with
    | [] => []
    | c :: cs =>
      if charsCI "join".toList (c :: cs) then
        match matchJoinAt ((c :: cs).drop 4) with
        | some (tbl, key, rest) => (tbl, key) :: findJoinsAux f rest
        | none => findJoinsAux f cs
      else findJoinsAux f cs

/-- All `JOIN … USING(…)` clauses of a query. -/
def findJoins (s : List Char) : List (String × String) :=
  findJoinsAux (s.length + 1) s

/-- Models `_split_top_level_commas`: split on commas at parenthesis depth zero. -/
def splitTopCommasAux : List Char → Int → List Char → List (List Char)
  | [], _, cur => if cur.isEmpty then [] else [cur]
  | ch :: rest, depth, cur =>
    let depth' := if ch == '(' then depth + 1 else if ch == ')' then depth - 1 else depth
    if ch == ',' && depth' == 0 then cur :: splitTopCommasAux rest depth' []
    else splitTopCommasAux rest depth' (cur ++ [ch])

/-- Python `str.split(sep)` for a single-character separator (keeps empties). -/
def splitOnChar (sep : Char) : List Char → List (List Char)
  | [] => [[]]
  | c :: cs =>
    let r := splitOnChar sep cs
    if c == sep then [] :: r
    else
      match r with
      | h :: t => (c :: h) :: t
      | [] => [[c]]

/-- A parsed SELECT item: aggregate call or plain column, with its output name. -/
inductive SelectItem where
  | agg (func : String) (col : Option String) (outName : String)
  | col (name : String) (outName : String)

/-- A whole remaining string that is one identifier (`([a-zA-Z0-9_]+)$`). -/
def identToEnd (s : List Char) : Option String :=
  if !s.isEmpty && s.all wordChar then some (String.mk s) else none

/-- Models `(?:\s+as\s+|\s+)([a-zA-Z0-9_]+)$`: the alias at the end of an item. -/
def matchAliasTail (s : List Char) : Option String :=
  let ws := s.takeWhile Char.isWhitespace
  if ws.isEmpty then none
  else
    let r := s.drop ws.length
    let tryAs :=
      if charsCI "as".toList r then
        let r2 := r.drop 2
        let ws2 := r2.takeWhile Char.isWhitespace
        if ws2.isEmpty then none else identToEnd (r2.drop ws2.length)
      else none
    match tryAs with
    | some a => some a
    | none => identToEnd r

/-- The lazy split of `^(.*?)(?:\s+as\s+|\s+)([a-zA-Z0-9_]+)$`: the shortest
expression prefix whose tail is an alias. -/
def splitAliasAux (pre rest : List Char) : Option (List Char × String) :=
  match matchAliasTail rest with
  | some a => some (pre, a)
  | none =>
    match rest with
    | [] => none
    | c :: cs => splitAliasAux (pre ++ [c]) cs

/-- Models `^([A-Za-z0-9_]+)\s*\(\s*([A-Za-z0-9_*]+)?\s*\)$`: a function-call item. -/
def matchFuncItem (s : List Char) : Option (String × Option String) :=
  let f := s.takeWhile wordChar
  if f.isEmpty then none
  else
    match (s.drop f.length).dropWhile Char.isWhitespace with
    | '(' :: r2 =>
      let r3 := r2.dropWhile Char.isWhitespace
      let arg := r3.takeWhile (fun c => wordChar c || c == '*')
      match (r3.drop arg.length).dropWhile Char.isWhitespace with
      | [')'] => some (String.mk f, if arg.isEmpty then none else some (String.mk arg))
      | _ => none
    | _ => none

/-- Classification of one SELECT item (`_parse_select_items` body). -/
def parseSelectItem (raw : List Char) : SelectItem :=
  let it := trimChars raw
  let split := splitAliasAux [] it
  let exprCs := match split with | some p => p.1 | none => it
  let aliasOpt := match split with | some p => some p.2 | none => none
  match matchFuncItem exprCs with
  | some (f, colOpt) =>
    let func := upperStr f
    let outName :=
      match aliasOpt with
      | some a => a
      | none => func ++ "_" ++ (match colOpt with | some c => c | none => "*")
    SelectItem.agg func colOpt outName
  | none =>
    let name := String.mk exprCs
    let outName := match aliasOpt with | some a => a | none => name
    SelectItem.col name outName

/-- Models `_parse_select_items`. -/
def parseSelectItems (clause : List Char) : List SelectItem :=
  (splitTopCommasAux clause 0 []).map parseSelectItem

/-- Models `_compute_aggregate_over_rows`. -/
def computeAggregateOverRows (func : String) (col : Option String) (rows : List Row) : Value :=
  let f := upperStr func
  if f = "COUNT" then
    match col with
    | none => .int rows.length
    | some c =>
      if c = "*" then .int rows.length
      else .int ((rows.filter fun r => notNull (rowGet r c)).length)
  else
    let vals := match col with | none => [] | some c => colNumVals rows c
    match vals with
    | [] => .null
    | v :: tl =>
      if f = "SUM" then pySum (v :: tl)
      else if f = "MIN" then pyMinV v tl
      else if f = "MAX" then pyMaxV v tl
      else if f = "AVG" then .float (ratSum (v :: tl) / (((v :: tl).length : Nat) : Rat))
      else .null

/-- The member rows of a group record (`group_dict.get("_rows", [])`). -/
def valueRowsOf (v : Value) : List Row :=
  match v with
  | .list vs => vs.filterMap fun x => match x with | .dict r => some r | _ => none
  | _ => []

/-- Models `_compute_group_agg`. -/
def computeGroupAgg (gr : Row) (func : String) (col : Option String) : Value :=
  computeAggregateOverRows func col (valueRowsOf (rowGet gr "_rows"))

/-- Projection of one group record (the grouped SELECT branch of `run`). -/
def projectGrouped (items : List SelectItem) (gr : Row) : Row :=
  items.map fun it =>
    match it with
    | .agg func col outName => (outName, computeGroupAgg gr func col)
    | .col name outName =>
      (outName,
        if (rowLookup gr name).isSome then rowGet gr name
        else
          match valueRowsOf (rowGet gr "_rows") with
          | [] => .null
          | r :: _ => rowGet r name)

/-- The single summary record of a non-grouped aggregate SELECT. -/
def projectAggSingle (items : List SelectItem) (rows : List Row) : Row :=
  items.map fun it =>
    match it with
    | .agg func col outName => (outName, computeAggregateOverRows func col rows)
    | .col name outName =>
      (outName, match rows with | [] => .null | r :: _ => rowGet r name)

/-- Plain column projection (only reached when no item is an aggregate). -/
def projectPlain (items : List SelectItem) (rows : List Row) : List Row :=
  rows.map fun r =>
    items.map fun it =>
      match it with
      | .col name outName => (outName, rowGet r name)
      | .agg _ _ outName => (outName, .null)

/-- Registry lookup, the attribute binding `getattr(self.db, name)`. -/
def lookupTable (tables : List (String × List Row)) (name : String) : Option (List Row) :=
  match tables.find? (fun kv => kv.1 = name) with
  | some kv => some kv.2
  | none => none

/-- The JOIN fold of `run`. -/
def resolveJoins (tables : List (String × List Row)) (joins : List (String × String))
    (rows : List Row) : Except String (List Row) :=
  match joins with
  | [] => .ok rows
  | (jt, jk) :: rest =>
    match lookupTable tables jt with
    | none => .error "Unknown join table"
    | some jrows => resolveJoins tables rest (joinRows rows jrows jk)

/-- Models `SQLParserAdvanced.run` over an explicit table registry: clause extraction,
FROM/JOIN resolution, WHERE, GROUP BY, HAVING, ORDER BY, LIMIT, then the SELECT
projection. -/
def runQuery (tables : List (String × List Row)) (sqlText : String) :
    Except String (List Row) := do
  let sClean := normWsChars (trimChars sqlText.toList)
  let selectClause ←
    match extractSelectClause sClean with
    | none => Except.error "Invalid SQL: missing SELECT ... FROM"
    | some c => Except.ok c
  let fromTable ←
    match findFromTable sClean with
    | none => Except.error "Invalid SQL: missing FROM table"
    | some t => Except.ok t
  let rows0 ←
    match lookupTable tables fromTable with
    | none => Except.error "Unknown table"
    | some r => Except.ok r
  let rows1 ← resolveJoins tables (findJoins sClean) rows0
  let rows2 ←
    match extractBetween "where".toList
        ["group by".toList, "having".toList, "order by".toList, "limit".toList] sClean with
    | none => Except.ok rows1
    | some w =>
      if w.isEmpty then Except.ok rows1
      else
        match parseBooleanExpression (String.mk w) with
        | .error e => Except.error e
        | .ok rpn =>
          match applyFilterExpr rpn rows1 with
          | none => Except.error "TypeError during WHERE evaluation"
          | some rs => Except.ok rs
  let groupClause := extractBetween "group by".toList
    ["having".toList, "order by".toList, "limit".toList] sClean
  let st :=
    match groupClause with
    | none => (rows2, false)
    | some g =>
      if g.isEmpty then (rows2, false)
      else
        let cols := (splitOnChar ',' g).map fun c => String.mk (trimChars c)
        (group_byRows cols rows2, true)
  let rows3 := st.1
  let grouped := st.2
  let rows4 ←
    match extractBetween "having".toList ["order by".toList, "limit".toList] sClean with
    | none => Except.ok rows3
    | some h =>
      if h.isEmpty then Except.ok rows3
      else
        match parseBooleanExpression (String.mk h) with
        | .error e => Except.error e
        | .ok rpn =>
          match applyFilterExpr rpn rows3 with
          | none => Except.error "TypeError during HAVING evaluation"
          | some rs => Except.ok rs
  let rows5 :=
    match findOrderBy sClean with
    | none => rows4
    | some cd => order_byRows rows4 cd.1 cd.2
  let rows6 :=
    match findLimit sClean with
    | none => rows5
    | some n => limitRows (Int.ofNat n) rows5
  if String.mk selectClause = "*" then Except.ok rows6
  else
    let items := parseSelectItems selectClause
    if grouped then Except.ok (rows6.map (projectGrouped items))
    else if items.any (fun it => match it with | .agg _ _ _ => true | _ => false) then
      Except.ok [projectAggSingle items rows6]
    else Except.ok (projectPlain items rows6)

/-- The scenario table `T = [{id:1,amt:10},{id:1,amt:20},{id:2,amt:5}]`. -/
def tableT : List Row :=
  [[("id", .int 1), ("amt", .int 10)],
   [("id", .int 1), ("amt", .int 20)],
   [("id", .int 2), ("amt", .int 5)]]

/-!
Claim-support definitions: operator classes, paren-mismatch predicate, and an
end-to-end expression evaluation helper.
-/

/-- The six comparison operator strings shared by `where` and `having`. -/
def sixCmpOps : List String := ["=", "!=", ">", "<", ">=", "<="]

/-- The four ordering operator strings. -/
def orderingOps : List String := [">", "<", ">=", "<="]

/-- The atomic comparison operators of the expression grammar that compile at
precedence 4 without read-ahead (the comparisons and `CONTAINS`). -/
def cmpAtomOps : List String := ["=", "!=", ">", "<", ">=", "<=", "CONTAINS"]

/-- A comparison atom `<col> <op> <lit>` as a token sequence. -/
def atomToks (c o : String) (v : Value) : List Tok :=
  [.ident c, .op o, .lit v]

/-- Compile a token sequence and evaluate it on one record (`none` when either
stage raises). -/
def evalExprTokens (ts : List Tok) (row : Row) : Option Bool :=
  match toRpn ts with
  | .error _ => none
  | .ok rpn => evalRpnAux row rpn []

/-- Does a token carry an operator that upper-cases to `IN` (triggering the
compiler's read-ahead)? -/
def noINTok : List Tok → Bool
  | [] => true
  | .op s :: ts => !(upperStr s == "IN") && noINTok ts
  | _ :: ts => noINTok ts

/-- Mismatched parentheses in a token sequence read left to right with `d` open
parens: a closer at depth zero, or open parens remaining at the end. -/
def parenBad : Nat → List Tok → Bool
  | d, [] => !(d == 0)
  | d, .lparen :: ts => parenBad (d + 1) ts
  | d, .rparen :: ts => if d == 0 then true else parenBad (d - 1) ts
  | d, _ :: ts => parenBad d ts

/-- Error test on a compilation result. -/
def isErrE (e : Except String (List Tok)) : Bool :=
  match e with
  | .error _ => true
  | .ok _ => false

/-- Number of left parentheses on the operator stack. -/
def countLparen : List Tok → Nat
  | [] => 0
  | .lparen :: ts => countLparen ts + 1
  | _ :: ts => countLparen ts

/-- The operator stack only ever holds operators and left parentheses. -/
def stackWF : List Tok → Bool
  | [] => true
  | .op _ :: ts => stackWF ts
  | .lparen :: ts => stackWF ts
  | _ :: _ => false

/-- No unescaped closing quote `q` occurs in the scan (with `prev` the
character before the scan position). -/
def hasCloseQuote (q : Char) : Char → List Char → Bool
  | _, [] => false
  | prev, c :: cs => (c == q && prev != '\\') || hasCloseQuote q c cs

/-!
Claim theorems.
-/

/-- C6: over `T = [{id:1,amt:10},{id:1,amt:20},{id:2,amt:5}]` the query
`SELECT id FROM T WHERE amt > 8 ORDER BY id DESC LIMIT 1` returns exactly
`[{id: 1}]`: only the id=1 rows pass the filter, the stable descending sort on
equal keys keeps their order, and the limit keeps one of them. -/
theorem scenario_query_returns_id1 :
    runQuery [("T", tableT)] "SELECT id FROM T WHERE amt > 8 ORDER BY id DESC LIMIT 1" =
      .ok [[("id", Value.int 1)]] := rfl

/-- C3: compiling `c NOT IN (1, 2)` through the expression machinery pushes the
`NOT` operator before the `IN` operator, so the postfix form is
`[c, [1,2], NOT, IN]`; evaluating it negates the truthy list literal and then
feeds the resulting boolean to `IN` as its container operand, which raises a
`TypeError` on every record — membership is never computed.  (Shown at the
member record `{c:1}` and at the non-member record `{c:5}`.) -/
theorem not_in_eval_raises :
    parseBooleanExpression "c not in (1, 2)" =
      .ok [Tok.ident "c", Tok.lit (.list [.int 1, .int 2]), Tok.op "NOT", Tok.op "IN"] ∧
    applyFilterExpr [Tok.ident "c", Tok.lit (.list [.int 1, .int 2]), Tok.op "NOT", Tok.op "IN"]
      [[("c", Value.int 1)]] = none ∧
    applyFilterExpr [Tok.ident "c", Tok.lit (.list [.int 1, .int 2]), Tok.op "NOT", Tok.op "IN"]
      [[("c", Value.int 5)]] = none :=
  ⟨rfl, rfl, rfl⟩

/-- C1 counterexample: a `contains` predicate selects the matching row under
`where` but selects nothing under `having` (whose operator chain has no
`contains` branch and falls through to `return False`), so the two filters are
not extensionally equal on `contains`/`in`/`not in` predicates. -/
theorem having_contains_differs_from_where :
    havingFilter [("a", "contains", Value.str "ell")] [[("a", Value.str "hello")]] ≠
      whereFilter [("a", "contains", Value.str "ell")] [[("a", Value.str "hello")]] := by
  intro h
  have h1 : havingFilter [("a", "contains", Value.str "ell")] [[("a", Value.str "hello")]] =
      some [] := rfl
  have h2 : whereFilter [("a", "contains", Value.str "ell")] [[("a", Value.str "hello")]] =
      some [[("a", Value.str "hello")]] := rfl
  rw [h1, h2] at h
  exact List.noConfusion (Option.some.inj h)

theorem havingCheckCond_eq_whereCheckCond (row : Row) (c : Cond)
    (h : c.2.1 ∈ sixCmpOps) : havingCheckCond row c = whereCheckCond row c := by
  obtain ⟨col, op, v⟩ := c
  simp only [sixCmpOps, List.mem_cons, List.not_mem_nil, or_false] at h
  rcases h with rfl | rfl | rfl | rfl | rfl | rfl <;> rfl

theorem havingCheck_eq_whereCheck (conds : List Cond) (row : Row)
    (h : ∀ c ∈ conds, c.2.1 ∈ sixCmpOps) :
    havingCheck conds row = whereCheck conds row := by
  induction conds with
  | nil => rfl
  | cons c cs ih =>
    have hc := h c (List.mem_cons_self c cs)
    have hcs : ∀ x ∈ cs, x.2.1 ∈ sixCmpOps := fun x hx => h x (List.mem_cons_of_mem c hx)
    simp only [havingCheck, whereCheck, havingCheckCond_eq_whereCheckCond row c hc]
    cases whereCheckCond row c with
    | none => rfl
    | some b =>
      cases b with
      | false => rfl
      | true => exact ih hcs

/-- C1 (amended): `having` and `where` agree — including the raising behavior
on a numeric row value compared against a non-numeric literal — on every
predicate list whose operators are among the six comparison operators
`=, !=, >, <, >=, <=`; predicates using `contains`, `in` or `not in` reach
`having`'s fall-through `return False` branch, so they do not. -/
theorem having_matches_where_on_cmp_ops (conds : List Cond) (rows : List Row)
    (h : ∀ c ∈ conds, c.2.1 ∈ sixCmpOps) :
    havingFilter conds rows = whereFilter conds rows := by
  induction rows with
  | nil => rfl
  | cons r rs ih =>
    simp only [havingFilter, whereFilter, havingCheck_eq_whereCheck conds r h]
    cases whereCheck conds r with
    | none => rfl
    | some b => rw [ih]

/-- Witness for C1's amended theorem at a concrete predicate list and table. -/
theorem having_matches_where_on_cmp_ops_witness :
    havingFilter [("amt", ">", Value.int 8)] tableT =
      whereFilter [("amt", ">", Value.int 8)] tableT :=
  having_matches_where_on_cmp_ops [("amt", ">", Value.int 8)] tableT (by decide)

/-- C2 counterexample: filtering a record whose row value is numeric against a
non-numeric literal with an ordering predicate raises (`1 > "x"` is a Python
`TypeError` that `where` does not catch), instead of returning a result. -/
theorem where_raises_on_nonnumeric_literal :
    whereFilter [("a", ">", Value.str "x")] [[("a", Value.int 1)]] = none := rfl

/-- C2 (amended): for the ordering operators, when the record's own value is
non-numeric the predicate evaluates to `False` without raising — the guard
`isinstance(v, (int, float))` short-circuits before the comparison — and a
whole filter over such records returns the empty result rather than raising.
The symmetric case (numeric row value, non-numeric literal) raises instead. -/
theorem ordering_cmp_nonnumeric_row_value_false (col op : String) (v : Value)
    (hop : op ∈ orderingOps) :
    (∀ row : Row, isNumV (rowGet row col) = false →
      whereCheckCond row (col, op, v) = some false) ∧
    (∀ rows : List Row, (∀ r ∈ rows, isNumV (rowGet r col) = false) →
      whereFilter [(col, op, v)] rows = some []) := by
  simp only [orderingOps, List.mem_cons, List.not_mem_nil, or_false] at hop
  have hcond : ∀ row : Row, isNumV (rowGet row col) = false →
      whereCheckCond row (col, op, v) = some false := by
    intro row hrow
    rcases hop with rfl | rfl | rfl | rfl <;> simp [whereCheckCond, hrow]
  refine ⟨hcond, ?_⟩
  intro rows hall
  induction rows with
  | nil => rfl
  | cons r rs ih =>
    have h1 := hcond r (hall r (List.mem_cons_self r rs))
    have h2 := ih fun x hx => hall x (List.mem_cons_of_mem r hx)
    simp only [whereFilter, whereCheck, h1, h2]
    rfl

/-- Witness for C2's amended theorem: a string-valued row filtered with `>`
against a (non-numeric) string literal yields an empty result, no error. -/
theorem ordering_cmp_nonnumeric_row_value_false_witness :
    whereFilter [("a", ">", Value.str "x")] [[("a", Value.str "b")]] = some [] :=
  (ordering_cmp_nonnumeric_row_value_false "a" ">" (Value.str "x") (by decide)).2
    [[("a", Value.str "b")]] (by decide)

/-- C8 counterexample: `limit(-1)` is Python slice `rows[:-1]`; applied twice
to the three-row table it keeps one row, applied once it keeps two, so
`limit(n)` is not idempotent for every `n`. -/
theorem limit_negative_not_idempotent :
    limitRows (-1) (limitRows (-1) tableT) ≠ limitRows (-1) tableT := by
  intro h
  have hlen := congrArg List.length h
  have h1 : (limitRows (-1) (limitRows (-1) tableT)).length = 1 := rfl
  have h2 : (limitRows (-1) tableT).length = 2 := rfl
  rw [h1, h2] at hlen
  exact absurd hlen (by decide)

/-- C8 (amended): for every non-negative `n`, `limit(n)` is idempotent; for
every `n` (negative included) it never yields more records than its input; and
whenever `n` is at least the input length the records are unchanged.  Negative
`n` follows Python slice semantics (drop `-n` records from the end), which
breaks idempotence. -/
theorem limit_idempotent_nonneg (rows : List Row) (n : Int) :
    (0 ≤ n → limitRows n (limitRows n rows) = limitRows n rows) ∧
    (limitRows n rows).length ≤ rows.length ∧
    ((rows.length : Int) ≤ n → limitRows n rows = rows) := by
  refine ⟨?_, ?_, ?_⟩
  · intro hn
    simp only [limitRows, pySliceTo, if_pos hn]
    rw [List.take_take]
    simp
  · simp only [limitRows, pySliceTo]
    split <;> simp [List.length_take]
  · intro hn
    have h0 : 0 ≤ n := le_trans (Int.ofNat_nonneg rows.length) hn
    simp only [limitRows, pySliceTo, if_pos h0]
    apply List.take_of_length_le
    omega

/-- Witness for C8's amended theorem at `n = 5` over the three-row table. -/
theorem limit_idempotent_nonneg_witness :
    limitRows 5 (limitRows 5 tableT) = limitRows 5 tableT ∧
    (limitRows 5 tableT).length ≤ tableT.length ∧
    limitRows 5 tableT = tableT :=
  ⟨(limit_idempotent_nonneg tableT 5).1 (by decide),
   (limit_idempotent_nonneg tableT 5).2.1,
   (limit_idempotent_nonneg tableT 5).2.2 (by decide)⟩

/-- C9: in `join(other, key)`, a left row whose key column is absent or null
(`l.get(key)` is `None` either way) matches every right row whose key column is
also absent or null, because the join's membership test is Python `==` and
`None == None` holds; each such pair contributes its merged row to the output. -/
theorem join_null_keys_match (L R : List Row) (key : String) (l r : Row)
    (hl : l ∈ L) (hr : r ∈ R)
    (hnl : rowGet l key = Value.null) (hnr : rowGet r key = Value.null) :
    mergeRow l r ∈ joinRows L R key := by
  unfold joinRows
  rw [List.mem_flatMap]
  refine ⟨l, hl, ?_⟩
  rw [List.mem_map]
  refine ⟨r, ?_, rfl⟩
  rw [List.mem_filter]
  refine ⟨hr, ?_⟩
  rw [hnl, hnr]
  rfl

/-- Witness for C9 at a pair of rows that both lack the join key. -/
theorem join_null_keys_match_witness :
    mergeRow [("x", Value.int 1)] [("k", Value.null), ("y", Value.int 2)] ∈
      joinRows [[("x", Value.int 1)]] [[("k", Value.null), ("y", Value.int 2)]] "k" :=
  join_null_keys_match [[("x", Value.int 1)]] [[("k", Value.null), ("y", Value.int 2)]] "k"
    [("x", Value.int 1)] [("k", Value.null), ("y", Value.int 2)]
    (List.mem_singleton.mpr rfl) (List.mem_singleton.mpr rfl) rfl rfl

theorem multi_joinTQ_lower (ts : List TableQuery) (key : String) :
    ∀ (acc : TableQuery × Nat) (m : Nat), m ≤ acc.1.tqid → acc.1.tqid < acc.2 →
      m ≤ (ts.foldl (fun a jt => joinTQ a.1 jt key a.2) acc).1.tqid := by
  induction ts with
  | nil => intro acc m h1 _; exact h1
  | cons jt ts ih =>
    intro acc m h1 h2
    simp only [List.foldl_cons]
    exact ih (joinTQ acc.1 jt key acc.2) m (le_of_lt (lt_of_le_of_lt h1 h2))
      (Nat.lt_succ_self _)

/-- C7 (amended): every operator except a failing `order_by` returns a freshly
allocated pipeline instance (its id is the fresh id, distinct from the
input's); `order_by` whose key sort raises returns its own input instance with
the rows untouched (`except Exception: return self`).  Mutation-freedom is
intrinsic to the embedding: each operator is a pure function of its input's
rows. -/
theorem operators_allocate_fresh_except_failed_sort
    (t other : TableQuery) (ts : List TableQuery) (conds : List Cond)
    (cols : List String) (col key : String) (desc : Bool) (i : Int) (n : Nat)
    (hn : t.tqid < n) :
    (∀ res, whereTQ t conds n = some res → res.1.tqid ≠ t.tqid) ∧
    (selectTQ t cols n).1.tqid ≠ t.tqid ∧
    (sortRowsE t.rows col desc ≠ none → (order_byTQ t col desc n).1.tqid ≠ t.tqid) ∧
    (sortRowsE t.rows col desc = none → order_byTQ t col desc n = (t, n)) ∧
    (limitTQ t i n).1.tqid ≠ t.tqid ∧
    (joinTQ t other key n).1.tqid ≠ t.tqid ∧
    (multi_joinTQ t ts key n).1.tqid ≠ t.tqid ∧
    (group_byTQ t cols n).1.tqid ≠ t.tqid ∧
    (∀ res, havingTQ t conds n = some res → res.1.tqid ≠ t.tqid) := by
  have hne : n ≠ t.tqid := Nat.ne_of_gt hn
  refine ⟨?_, hne, ?_, ?_, hne, hne, ?_, hne, ?_⟩
  · intro res h
    unfold whereTQ at h
    cases hwf : whereFilter conds t.rows with
    | none => rw [hwf] at h; exact Option.noConfusion h
    | some rs =>
      rw [hwf] at h
      have hres := Option.some.inj h
      rw [← hres]
      exact hne
  · intro hs
    cases hsort : sortRowsE t.rows col desc with
    | none => exact absurd hsort hs
    | some rs =>
      simp only [order_byTQ, hsort]
      exact hne
  · intro h0
    simp only [order_byTQ, h0]
  · have hle := multi_joinTQ_lower ts key ((⟨n, t.rows⟩ : TableQuery), n + 1) n
      (le_refl n) (Nat.lt_succ_self n)
    have hle' : n ≤ (multi_joinTQ t ts key n).1.tqid := hle
    intro heq
    rw [heq] at hle'
    omega
  · intro res h
    unfold havingTQ at h
    cases hwf : havingFilter conds t.rows with
    | none => rw [hwf] at h; exact Option.noConfusion h
    | some rs =>
      rw [hwf] at h
      have hres := Option.some.inj h
      rw [← hres]
      exact hne

/-- Witness for C7's amended theorem: `select` over a three-row table with
fresh id 5 returns an instance distinct from the input instance. -/
theorem operators_allocate_fresh_except_failed_sort_witness :
    (selectTQ ⟨0, tableT⟩ ["id"] 5).1.tqid ≠ (⟨0, tableT⟩ : TableQuery).tqid :=
  (operators_allocate_fresh_except_failed_sort ⟨0, tableT⟩ ⟨1, []⟩ [] [] [] "id" "k"
    false 0 5 (by decide)).2.1

/-- C7 counterexample: sorting on a column holding an int in one row and a
string in another raises, and `order_by` then returns the very same pipeline
instance (id 0, not the fresh id 5) over the same sequence — not a new
instance over a newly allocated sequence. -/
theorem order_by_failure_returns_self :
    order_byTQ ⟨0, [[("a", Value.int 1)], [("a", Value.str "x")]]⟩ "a" false 5 =
      ((⟨0, [[("a", Value.int 1)], [("a", Value.str "x")]]⟩ : TableQuery), 5) := rfl

theorem scanStr_no_close (q : Char) (rest : List Char) :
    ∀ prev : Char, hasCloseQuote q prev rest = false → scanStr q rest prev = (rest, []) := by
  induction rest with
  | nil => intro prev _; rfl
  | cons c cs ih =>
    intro prev h
    simp only [hasCloseQuote, Bool.or_eq_false_iff] at h
    simp only [scanStr, h.1]
    rw [ih c h.2]
    rfl

/-- C10: an expression whose opening quote is never closed by an unescaped
matching quote does not raise a lexical error: the scan consumes the entire
remainder after the quote as the body of a single text literal token and the
tokenizer terminates normally. -/
theorem tokenizer_unterminated_quote_ok (q : Char) (rest : List Char)
    (hq : q = '\'' ∨ q = '"') (h : hasCloseQuote q q rest = false) :
    tokenizeChars (q :: rest) = .ok [Tok.lit (.str (String.mk rest))] := by
  rcases hq with rfl | rfl
  · show consTok (Tok.lit (.str (String.mk (scanStr '\'' rest '\'').1)))
        (tokenizeAux (rest.length + 1) (scanStr '\'' rest '\'').2) =
      .ok [Tok.lit (.str (String.mk rest))]
    rw [scanStr_no_close '\'' rest '\'' h]
    rfl
  · show consTok (Tok.lit (.str (String.mk (scanStr '"' rest '"').1)))
        (tokenizeAux (rest.length + 1) (scanStr '"' rest '"').2) =
      .ok [Tok.lit (.str (String.mk rest))]
    rw [scanStr_no_close '"' rest '"' h]
    rfl

/-- Witness for C10 at the unterminated input `'abc`. -/
theorem tokenizer_unterminated_quote_ok_witness :
    tokenizeChars ('\'' :: "abc".toList) = .ok [Tok.lit (.str (String.mk "abc".toList))] :=
  tokenizer_unterminated_quote_ok '\'' "abc".toList (Or.inl rfl) (by decide)

theorem flushStack_err : ∀ (st : List Tok), stackWF st = true →
    ∀ out, isErrE (flushStack st out) = !(countLparen st == 0) := by
  intro st
  induction st with
  | nil => intro _ out; rfl
  | cons t ts ih =>
    intro hwf out
    cases t with
    | op s =>
      have hwf' : stackWF ts = true := hwf
      exact ih hwf' (out ++ [.op s])
    | lparen => simp [flushStack, isErrE, countLparen]
    | rparen => exact Bool.noConfusion hwf
    | comma => exact Bool.noConfusion hwf
    | lit v => exact Bool.noConfusion hwf
    | ident s => exact Bool.noConfusion hwf

theorem popGE_snd (p : Nat) : ∀ st : List Tok,
    countLparen (popGE p st).2 = countLparen st ∧
    (stackWF st = true → stackWF (popGE p st).2 = true) := by
  intro st
  induction st with
  | nil => exact ⟨rfl, fun h => h⟩
  | cons t ts ih =>
    cases t with
    | op s =>
      by_cases hp : prec s ≥ p
      · constructor
        · simp only [popGE, if_pos hp]
          exact ih.1
        · intro hwf
          simp only [popGE, if_pos hp]
          exact ih.2 hwf
      · constructor
        · simp only [popGE, if_neg hp]
        · intro hwf
          simp only [popGE, if_neg hp]
          exact hwf
    | lparen => exact ⟨rfl, fun h => h⟩
    | rparen => exact ⟨rfl, fun h => h⟩
    | comma => exact ⟨rfl, fun h => h⟩
    | lit v => exact ⟨rfl, fun h => h⟩
    | ident s => exact ⟨rfl, fun h => h⟩

theorem popGT_snd (p : Nat) : ∀ st : List Tok,
    countLparen (popGT p st).2 = countLparen st ∧
    (stackWF st = true → stackWF (popGT p st).2 = true) := by
  intro st
  induction st with
  | nil => exact ⟨rfl, fun h => h⟩
  | cons t ts ih =>
    cases t with
    | op s =>
      by_cases hp : prec s > p
      · constructor
        · simp only [popGT, if_pos hp]
          exact ih.1
        · intro hwf
          simp only [popGT, if_pos hp]
          exact ih.2 hwf
      · constructor
        · simp only [popGT, if_neg hp]
        · intro hwf
          simp only [popGT, if_neg hp]
          exact hwf
    | lparen => exact ⟨rfl, fun h => h⟩
    | rparen => exact ⟨rfl, fun h => h⟩
    | comma => exact ⟨rfl, fun h => h⟩
    | lit v => exact ⟨rfl, fun h => h⟩
    | ident s => exact ⟨rfl, fun h => h⟩

theorem popToLparen_spec : ∀ st : List Tok, stackWF st = true →
    ((popToLparen st = none) ↔ countLparen st = 0) ∧
    (∀ pr, popToLparen st = some pr →
      countLparen st = countLparen pr.2 + 1 ∧ stackWF pr.2 = true) := by
  intro st
  induction st with
  | nil =>
    intro _
    exact ⟨⟨fun _ => rfl, fun _ => rfl⟩, fun pr h => Option.noConfusion h⟩
  | cons t ts ih =>
    intro hwf
    cases t with
    | lparen =>
      constructor
      · constructor
        · intro h; exact Option.noConfusion h
        · intro h0; exact absurd h0 (by simp [countLparen])
      · intro pr h
        have hpr : (([] : List Tok), ts) = pr := Option.some.inj h
        rw [← hpr]
        exact ⟨rfl, hwf⟩
    | op s =>
      have hwf' : stackWF ts = true := hwf
      have ihh := ih hwf'
      constructor
      · constructor
        · intro h
          cases hrec : popToLparen ts with
          | none => exact ihh.1.mp hrec
          | some pr =>
            simp only [popToLparen, hrec] at h
            exact Option.noConfusion h
        · intro h0
          have hn := ihh.1.mpr h0
          simp only [popToLparen, hn]
      · intro pr h
        cases hrec : popToLparen ts with
        | none =>
          simp only [popToLparen, hrec] at h
          exact Option.noConfusion h
        | some pr' =>
          obtain ⟨p, st'⟩ := pr'
          simp only [popToLparen, hrec] at h
          have hpr := Option.some.inj h
          rw [← hpr]
          have := ihh.2 (p, st') hrec
          exact ⟨this.1, this.2⟩
    | rparen => exact Bool.noConfusion hwf
    | comma => exact Bool.noConfusion hwf
    | lit v => exact Bool.noConfusion hwf
    | ident s => exact Bool.noConfusion hwf

theorem toRpnAux_err : ∀ (ts : List Tok), noINTok ts = true →
    ∀ (out st : List Tok), stackWF st = true →
      isErrE (toRpnAux .norm ts out st) = parenBad (countLparen st) ts := by
  intro ts
  induction ts with
  | nil =>
    intro _ out st hwf
    exact flushStack_err st hwf out
  | cons t rest ih =>
    intro hno out st hwf
    cases t with
    | lit v => exact ih hno (out ++ [.lit v]) st hwf
    | ident s => exact ih hno (out ++ [.ident s]) st hwf
    | comma => exact ih hno out st hwf
    | lparen => exact ih hno out (.lparen :: st) hwf
    | rparen =>
      have hspec := popToLparen_spec st hwf
      cases hrec : popToLparen st with
      | none =>
        have h0 : countLparen st = 0 := hspec.1.mp hrec
        simp only [toRpnAux, hrec, parenBad, h0]
        rfl
      | some pr =>
        obtain ⟨p, st'⟩ := pr
        have hcnt := hspec.2 (p, st') hrec
        simp only [toRpnAux, hrec]
        rw [ih hno (out ++ p) st' hcnt.2]
        show parenBad (countLparen st') rest =
          if countLparen st == 0 then true else parenBad (countLparen st - 1) rest
        rw [hcnt.1]
        simp
    | op s =>
      have hno' : (!(upperStr s == "IN") && noINTok rest) = true := hno
      simp only [Bool.and_eq_true] at hno'
      have hIN' := hno'.1
      have hrest := hno'.2
      have hIN : ¬ (upperStr s = "IN") := by
        intro hh
        rw [hh] at hIN'
        simp at hIN'
      by_cases hnot : s = "NOT"
      · subst hnot
        rw [toRpnAux.eq_def]
        show isErrE (toRpnAux .norm rest (out ++ (popGT (prec "NOT") st).1)
            (.op "NOT" :: (popGT (prec "NOT") st).2)) =
          parenBad (countLparen st) (Tok.op "NOT" :: rest)
        rw [ih hrest (out ++ (popGT (prec "NOT") st).1)
          (.op "NOT" :: (popGT (prec "NOT") st).2) ((popGT_snd (prec "NOT") st).2 hwf)]
        show parenBad (countLparen (popGT (prec "NOT") st).2) rest =
          parenBad (countLparen st) rest
        rw [(popGT_snd (prec "NOT") st).1]
      · rw [toRpnAux.eq_def]
        simp only [if_neg hnot, if_neg hIN]
        rw [ih hrest (out ++ (popGE (prec s) st).1)
          (.op s :: (popGE (prec s) st).2) ((popGE_snd (prec s) st).2 hwf)]
        show parenBad (countLparen (popGE (prec s) st).2) rest =
          parenBad (countLparen st) rest
        rw [(popGE_snd (prec s) st).1]

/-- C4 (amended): compilation to postfix raises the fatal "Mismatched
parentheses" error exactly on the mismatched token sequences, for every token
sequence containing no `IN` operator; an `IN` operator's list read-ahead,
however, swallows a missing closing parenthesis — it consumes to end of input
and compiles successfully — so the claim's IN-list case does not raise. -/
theorem to_rpn_error_iff_paren_bad (ts : List Tok) (hno : noINTok ts = true) :
    isErrE (toRpn ts) = parenBad 0 ts := by
  have h := toRpnAux_err ts hno [] [] rfl
  unfold toRpn
  cases htr : toRpnAux .norm ts [] [] with
  | error e =>
    rw [htr] at h
    exact h
  | ok o =>
    rw [htr] at h
    exact h

/-- Witness for C4's amended theorem: a lone unmatched left parenthesis is a
mismatched sequence without `IN`, and compiling it errors accordingly. -/
theorem to_rpn_error_iff_paren_bad_witness :
    isErrE (toRpn [Tok.lparen, Tok.ident "a"]) = parenBad 0 [Tok.lparen, Tok.ident "a"] :=
  to_rpn_error_iff_paren_bad [Tok.lparen, Tok.ident "a"] rfl

/-- C4 counterexample: the token sequence of `a IN (1, 2` has mismatched
parentheses, yet compilation succeeds — the read-ahead consumes to end of
input, silently drops the pending element `2`, and emits `a [1] IN` — instead
of raising a fatal error. -/
theorem in_list_missing_rparen_compiles :
    parenBad 0 [Tok.ident "a", Tok.op "IN", Tok.lparen, Tok.lit (.int 1), Tok.comma,
      Tok.lit (.int 2)] = true ∧
    toRpn [Tok.ident "a", Tok.op "IN", Tok.lparen, Tok.lit (.int 1), Tok.comma,
      Tok.lit (.int 2)] =
      .ok [Tok.ident "a", Tok.lit (.list [.int 1]), Tok.op "IN"] ∧
    parseBooleanExpression "a in (1, 2" =
      .ok [Tok.ident "a", Tok.lit (.list [.int 1]), Tok.op "IN"] :=
  ⟨rfl, rfl, rfl⟩

theorem op_step (o : String) (rest out st : List Tok)
    (hn : o ≠ "NOT") (hi : upperStr o ≠ "IN") :
    toRpnAux .norm (.op o :: rest) out st =
      toRpnAux .norm rest (out ++ (popGE (prec o) st).1) (.op o :: (popGE (prec o) st).2) := by
  rw [toRpnAux.eq_def]
  simp only [if_neg hn, if_neg hi]

theorem toRpnAux_or_and (c1 c2 c3 o1 o2 o3 : String) (v1 v2 v3 : Value)
    (hp1 : prec o1 = 4) (hn1 : o1 ≠ "NOT") (hi1 : upperStr o1 ≠ "IN")
    (hp2 : prec o2 = 4) (hn2 : o2 ≠ "NOT") (hi2 : upperStr o2 ≠ "IN")
    (hp3 : prec o3 = 4) (hn3 : o3 ≠ "NOT") (hi3 : upperStr o3 ≠ "IN") :
    toRpnAux .norm [.ident c1, .op o1, .lit v1, .op "OR", .ident c2, .op o2, .lit v2,
        .op "AND", .ident c3, .op o3, .lit v3] [] [] =
      .ok [Tok.ident c1, Tok.lit v1, Tok.op o1, Tok.ident c2, Tok.lit v2, Tok.op o2,
        Tok.ident c3, Tok.lit v3, Tok.op o3, Tok.op "AND", Tok.op "OR"] ∧
    toRpnAux .norm [.ident c1, .op o1, .lit v1, .op "OR", .lparen, .ident c2, .op o2,
        .lit v2, .op "AND", .ident c3, .op o3, .lit v3, .rparen] [] [] =
      .ok [Tok.ident c1, Tok.lit v1, Tok.op o1, Tok.ident c2, Tok.lit v2, Tok.op o2,
        Tok.ident c3, Tok.lit v3, Tok.op o3, Tok.op "AND", Tok.op "OR"] := by
  have hOR : prec "OR" = 1 := rfl
  have hAND : prec "AND" = 2 := rfl
  have p2 : popGE (prec "OR") [Tok.op o1] = ([Tok.op o1], []) := by
    rw [hOR]
    simp [popGE, hp1]
  have p3 : popGE (prec o2) [Tok.op "OR"] = ([], [Tok.op "OR"]) := by
    simp [popGE, hp2, hOR]
  have p4 : popGE (prec "AND") [Tok.op o2, Tok.op "OR"] = ([Tok.op o2], [Tok.op "OR"]) := by
    rw [hAND]
    simp [popGE, hp2, hOR]
  have p5 : popGE (prec o3) [Tok.op "AND", Tok.op "OR"] =
      ([], [Tok.op "AND", Tok.op "OR"]) := by
    simp [popGE, hp3, hAND]
  have q4 : popGE (prec "AND") [Tok.op o2, Tok.lparen, Tok.op "OR"] =
      ([Tok.op o2], [Tok.lparen, Tok.op "OR"]) := by
    rw [hAND]
    simp [popGE, hp2]
  have q5 : popGE (prec o3) [Tok.op "AND", Tok.lparen, Tok.op "OR"] =
      ([], [Tok.op "AND", Tok.lparen, Tok.op "OR"]) := by
    simp [popGE, hp3, hAND]
  constructor
  · show toRpnAux .norm [.op o1, .lit v1, .op "OR", .ident c2, .op o2, .lit v2, .op "AND",
        .ident c3, .op o3, .lit v3] [Tok.ident c1] [] = _
    rw [op_step o1 _ _ _ hn1 hi1]
    show toRpnAux .norm [.op "OR", .ident c2, .op o2, .lit v2, .op "AND", .ident c3,
        .op o3, .lit v3] [Tok.ident c1, Tok.lit v1] [Tok.op o1] = _
    rw [op_step "OR" _ _ _ (by decide) (by decide), p2]
    show toRpnAux .norm [.op o2, .lit v2, .op "AND", .ident c3, .op o3, .lit v3]
        [Tok.ident c1, Tok.lit v1, Tok.op o1, Tok.ident c2] [Tok.op "OR"] = _
    rw [op_step o2 _ _ _ hn2 hi2, p3]
    show toRpnAux .norm [.op "AND", .ident c3, .op o3, .lit v3]
        [Tok.ident c1, Tok.lit v1, Tok.op o1, Tok.ident c2, Tok.lit v2]
        [Tok.op o2, Tok.op "OR"] = _
    rw [op_step "AND" _ _ _ (by decide) (by decide), p4]
    show toRpnAux .norm [.op o3, .lit v3]
        [Tok.ident c1, Tok.lit v1, Tok.op o1, Tok.ident c2, Tok.lit v2, Tok.op o2,
         Tok.ident c3]
        [Tok.op "AND", Tok.op "OR"] = _
    rw [op_step o3 _ _ _ hn3 hi3, p5]
    rfl
  · show toRpnAux .norm [.op o1, .lit v1, .op "OR", .lparen, .ident c2, .op o2, .lit v2,
        .op "AND", .ident c3, .op o3, .lit v3, .rparen] [Tok.ident c1] [] = _
    rw [op_step o1 _ _ _ hn1 hi1]
    show toRpnAux .norm [.op "OR", .lparen, .ident c2, .op o2, .lit v2, .op "AND",
        .ident c3, .op o3, .lit v3, .rparen] [Tok.ident c1, Tok.lit v1] [Tok.op o1] = _
    rw [op_step "OR" _ _ _ (by decide) (by decide), p2]
    show toRpnAux .norm [.op o2, .lit v2, .op "AND", .ident c3, .op o3, .lit v3, .rparen]
        [Tok.ident c1, Tok.lit v1, Tok.op o1, Tok.ident c2]
        [Tok.lparen, Tok.op "OR"] = _
    rw [op_step o2 _ _ _ hn2 hi2]
    show toRpnAux .norm [.op "AND", .ident c3, .op o3, .lit v3, .rparen]
        [Tok.ident c1, Tok.lit v1, Tok.op o1, Tok.ident c2, Tok.lit v2]
        [Tok.op o2, Tok.lparen, Tok.op "OR"] = _
    rw [op_step "AND" _ _ _ (by decide) (by decide), q4]
    show toRpnAux .norm [.op o3, .lit v3, .rparen]
        [Tok.ident c1, Tok.lit v1, Tok.op o1, Tok.ident c2, Tok.lit v2, Tok.op o2,
         Tok.ident c3]
        [Tok.op "AND", Tok.lparen, Tok.op "OR"] = _
    rw [op_step o3 _ _ _ hn3 hi3, q5]
    rfl

/-- C5: for every record and all comparison atoms `A`, `B`, `C` (a column, one
of the equal-precedence atomic operators of the grammar — the six comparisons
or `CONTAINS` — and a literal), the unparenthesized `A OR B AND C` compiles to
exactly the same postfix sequence as `A OR (B AND C)`, because `AND`
(precedence 2) binds tighter than `OR` (precedence 1) under the compiler's
ordering `NOT` > `CONTAINS`/`IN`/comparisons > `AND` > `OR`; consequently both
forms evaluate to the same boolean on every record. -/
theorem or_and_precedence (c1 c2 c3 o1 o2 o3 : String) (v1 v2 v3 : Value)
    (h1 : o1 ∈ cmpAtomOps) (h2 : o2 ∈ cmpAtomOps) (h3 : o3 ∈ cmpAtomOps) :
    toRpn (atomToks c1 o1 v1 ++ [Tok.op "OR"] ++ atomToks c2 o2 v2 ++
        [Tok.op "AND"] ++ atomToks c3 o3 v3) =
      toRpn (atomToks c1 o1 v1 ++ [Tok.op "OR", Tok.lparen] ++ atomToks c2 o2 v2 ++
        [Tok.op "AND"] ++ atomToks c3 o3 v3 ++ [Tok.rparen]) ∧
    ∀ row : Row,
      evalExprTokens (atomToks c1 o1 v1 ++ [Tok.op "OR"] ++ atomToks c2 o2 v2 ++
        [Tok.op "AND"] ++ atomToks c3 o3 v3) row =
      evalExprTokens (atomToks c1 o1 v1 ++ [Tok.op "OR", Tok.lparen] ++ atomToks c2 o2 v2 ++
        [Tok.op "AND"] ++ atomToks c3 o3 v3 ++ [Tok.rparen]) row := by
  have hf : ∀ o : String, o ∈ cmpAtomOps → prec o = 4 ∧ o ≠ "NOT" ∧ upperStr o ≠ "IN" := by
    intro o ho
    simp only [cmpAtomOps, List.mem_cons, List.not_mem_nil, or_false] at ho
    rcases ho with rfl | rfl | rfl | rfl | rfl | rfl | rfl <;>
      exact ⟨rfl, by decide, by decide⟩
  obtain ⟨hp1, hn1, hi1⟩ := hf o1 h1
  obtain ⟨hp2, hn2, hi2⟩ := hf o2 h2
  obtain ⟨hp3, hn3, hi3⟩ := hf o3 h3
  have haux := toRpnAux_or_and c1 c2 c3 o1 o2 o3 v1 v2 v3 hp1 hn1 hi1 hp2 hn2 hi2
    hp3 hn3 hi3
  have e1 : toRpn (atomToks c1 o1 v1 ++ [Tok.op "OR"] ++ atomToks c2 o2 v2 ++
      [Tok.op "AND"] ++ atomToks c3 o3 v3) =
      .ok ([Tok.ident c1, Tok.lit v1, Tok.op o1, Tok.ident c2, Tok.lit v2, Tok.op o2,
        Tok.ident c3, Tok.lit v3, Tok.op o3, Tok.op "AND", Tok.op "OR"].map upperOpTok) := by
    show (match toRpnAux .norm [.ident c1, .op o1, .lit v1, .op "OR", .ident c2, .op o2,
        .lit v2, .op "AND", .ident c3, .op o3, .lit v3] [] [] with
      | .error e => (Except.error e : Except String (List Tok))
      | .ok out => Except.ok (out.map upperOpTok)) = _
    rw [haux.1]
  have e2 : toRpn (atomToks c1 o1 v1 ++ [Tok.op "OR", Tok.lparen] ++ atomToks c2 o2 v2 ++
      [Tok.op "AND"] ++ atomToks c3 o3 v3 ++ [Tok.rparen]) =
      .ok ([Tok.ident c1, Tok.lit v1, Tok.op o1, Tok.ident c2, Tok.lit v2, Tok.op o2,
        Tok.ident c3, Tok.lit v3, Tok.op o3, Tok.op "AND", Tok.op "OR"].map upperOpTok) := by
    show (match toRpnAux .norm [.ident c1, .op o1, .lit v1, .op "OR", .lparen, .ident c2,
        .op o2, .lit v2, .op "AND", .ident c3, .op o3, .lit v3, .rparen] [] [] with
      | .error e => (Except.error e : Except String (List Tok))
      | .ok out => Except.ok (out.map upperOpTok)) = _
    rw [haux.2]
  refine ⟨e1.trans e2.symm, fun row => ?_⟩
  unfold evalExprTokens
  rw [e1, e2]

/-- Witness for C5 at three equality atoms evaluated on a concrete record. -/
theorem or_and_precedence_witness :
    evalExprTokens (atomToks "x" "=" (Value.int 1) ++ [Tok.op "OR"] ++
        atomToks "y" "=" (Value.int 2) ++ [Tok.op "AND"] ++ atomToks "z" "=" (Value.int 3))
      [("x", Value.int 1)] =
    evalExprTokens (atomToks "x" "=" (Value.int 1) ++ [Tok.op "OR", Tok.lparen] ++
        atomToks "y" "=" (Value.int 2) ++ [Tok.op "AND"] ++ atomToks "z" "=" (Value.int 3) ++
        [Tok.rparen])
      [("x", Value.int 1)] :=
  (or_and_precedence "x" "y" "z" "=" "=" "=" (Value.int 1) (Value.int 2) (Value.int 3)
    (by decide) (by decide) (by decide)).2 [("x", Value.int 1)]
